import Mathlib

/-!
Verification development for the retry decorator, the mac-address helpers
and the truncation helper of gmusicapi/utils/utils.py.

The Python functions are shallowly embedded: a wrapped operation is a map
from the invocation index (1-based) to either a result or a raised
exception kind; the retry wrapper is modelled as a function that records
the number of invocations performed, the sequence of sleeps, the emitted
info-level log entries and the final outcome.  Delays are rationals
(Python numerics without rounding concerns here: the source only
multiplies), and the attempt counter is an integer, as in the source.
-/

namespace GMUtils

/-- Result of one invocation of a wrapped Python callable: either a normal
return value or a raised exception of kind ε. -/
inductive PyResult (α : Type) (ε : Type) where
  | ok (a : α)
  | exn (e : ε)
deriving DecidableEq, Repr

/-- Observable trace of one execution of the retry wrapper: how many times
the wrapped operation was invoked, which sleep durations were performed (in
order), which (error, upcoming-delay) info-log entries were emitted (in
order), and the final outcome (returned value or propagated exception). -/
structure RunResult (α : Type) (ε : Type) where
  calls : Nat
  sleeps : List ℚ
  logs : List (ε × ℚ)
  outcome : PyResult α ε
deriving DecidableEq, Repr

/-- Embedding of the loop body of retry_wrapper (utils.py lines 292-306):

    mtries, mdelay = tries, delay
    while mtries > 1:
        try:
            return f(*args, **kwargs)
        except retry_exception as e:
            logger.info("%s, retrying in %s seconds...", e, mdelay)
            time.sleep(mdelay)
            mtries -= 1
            mdelay *= backoff
    return f(*args, **kwargs)

The state (mtries, mdelay) plus the accumulated trace is threaded
explicitly; ncalls counts invocations already performed, so the next
invocation is f (ncalls + 1).  An exception kind for which retryable is
false escapes the except clause and propagates at once. -/
def retry_go {α ε : Type} (retryable : ε → Bool) (f : Nat → PyResult α ε)
    (backoff : ℚ) (mtries : Int) (mdelay : ℚ) (ncalls : Nat)
    (sleeps : List ℚ) (logs : List (ε × ℚ)) : RunResult α ε :=
  if h : 1 < mtries then
    match f (ncalls + 1) with
    | .ok a => ⟨ncalls + 1, sleeps, logs, .ok a⟩
    | .exn e =>
      if retryable e then
        retry_go retryable f backoff (mtries - 1) (mdelay * backoff) (ncalls + 1)
          (sleeps ++ [mdelay]) (logs ++ [(e, mdelay)])
      else ⟨ncalls + 1, sleeps, logs, .exn e⟩
  else
    ⟨ncalls + 1, sleeps, logs, f (ncalls + 1)⟩
termination_by (mtries - 1).toNat
decreasing_by simp_wf; omega

/-- The retry wrapper on a fresh call: local copies mtries := tries and
mdelay := delay, no invocations, sleeps or logs yet. -/
def retry_wrapper {α ε : Type} (retryable : ε → Bool) (tries : Int)
    (delay backoff : ℚ) (f : Nat → PyResult α ε) : RunResult α ε :=
  retry_go retryable f backoff tries delay 0 [] []

/-- Exception kinds relevant to the retry decorator: the two members of its
default retryable tuple, and every other kind (tagged by name). -/
inductive ExcKind where
  | AssertionError
  | CallFailure
  | other (name : String)
deriving DecidableEq, Repr

/-- Embedding of the default-argument resolution in retry (utils.py lines
289-290): if retry_exception is None, retry_exception = (AssertionError,
CallFailure).  A caller-supplied value is modelled as a membership test on
exception kinds.  (The logger default at lines 286-287 only selects where
log entries go; the entries themselves are recorded in RunResult.) -/
def resolved_retry_exception (retry_exception : Option (ExcKind → Bool)) :
    ExcKind → Bool :=
  match retry_exception with
  | none => fun e => e == ExcKind.AssertionError || e == ExcKind.CallFailure
  | some p => p

/-- Embedding of the retry decorator applied to an operation f: resolve the
default retryable set, then run retry_wrapper. -/
def retry {α : Type} (retry_exception : Option (ExcKind → Bool)) (tries : Int)
    (delay backoff : ℚ) (f : Nat → PyResult α ExcKind) : RunResult α ExcKind :=
  retry_wrapper (resolved_retry_exception retry_exception) tries delay backoff f

/-- Character for one base-16 digit as produced by Python hex():
0-9 then lowercase a-f. -/
def hexDigitChar (d : Nat) : Char :=
  if d < 10 then Char.ofNat (48 + d) else Char.ofNat (87 + d)

/-- Model of hex(num)[2:] for a nonnegative num: the minimal lowercase
base-16 digit string, most significant digit first, with hex(0)[2:] = "0".
In Python 2 a long literal carries a trailing L which the source trims
right away (utils.py lines 121-125), leaving exactly these digits. -/
def hexChars (n : Nat) : List Char :=
  if n = 0 then ['0'] else ((Nat.digits 16 n).map hexDigitChar).reverse

/-- Python string join of character-list pieces with a separator. -/
def joinWith (sep : List Char) : List (List Char) → List Char
  | [] => []
  | [p] => p
  | p :: q :: ps => p ++ sep ++ joinWith sep (q :: ps)

/-- Embedding of create_mac_string (utils.py lines 113-132): hex digits of
num, left-padded with zeros to width 12, sliced into the six pairs
mac[0:2], mac[2:4], ..., mac[10:12], joined with the splitter, and
uppercased. -/
def create_mac_string (num : Nat) (splitter : String) : String :=
  let mac := hexChars num
  let pad := max (12 - mac.length) 0
  let mac2 := List.replicate pad '0' ++ mac
  let pieces := (List.range 6).map (fun i => (mac2.drop (2 * i)).take 2)
  String.mk ((joinWith splitter.data pieces).map Char.toUpper)

/-- Test for the regex character class [0-9A-F]. -/
def isUpperHexDigit (c : Char) : Bool :=
  ('0' ≤ c && c ≤ '9') || ('A' ≤ c && c ≤ 'F')

/-- Model of the anchored regex match of the pattern
([0-9A-F][0-9A-F]:) repeated n times, then [0-9A-F][0-9A-F], as compiled
at utils.py line 46 with n = 5: n groups of pair-plus-colon, then a final
pair.  The dollar anchor of the Python regex also matches just before a
single trailing newline, modelled by the second base case. -/
def macGroups : Nat → List Char → Bool
  | 0, [a, b] => isUpperHexDigit a && isUpperHexDigit b
  | 0, [a, b, c] => isUpperHexDigit a && isUpperHexDigit b && c == '\n'
  | n + 1, a :: b :: c :: rest =>
      isUpperHexDigit a && isUpperHexDigit b && c == ':' && macGroups n rest
  | _, _ => false

/-- Embedding of is_valid_mac (utils.py lines 103-110): True exactly when
the mac pattern matches. -/
def is_valid_mac (mac_string : String) : Bool :=
  macGroups 5 mac_string.data

/-- The sixteen characters Python hex digits are drawn from. -/
def lowerHexChars : List Char := "0123456789abcdef".data

/-- Model of the Python values truncate operates on: strings
(basestring), lists, tuples, dicts (as key-value entry lists in insertion
order), integers, and None.  Integers and None have no length. -/
inductive PyVal where
  | pyStr (s : String)
  | pyList (xs : List PyVal)
  | pyTuple (xs : List PyVal)
  | pyDict (entries : List (PyVal × PyVal))
  | pyInt (n : Int)
  | pyNone

mutual

/-- Model of the Python equality used for dict keys. -/
def pyBeq : PyVal → PyVal → Bool
  | .pyStr a, .pyStr b => a == b
  | .pyList a, .pyList b => pyBeqList a b
  | .pyTuple a, .pyTuple b => pyBeqList a b
  | .pyDict a, .pyDict b => pyBeqEntries a b
  | .pyInt a, .pyInt b => a == b
  | .pyNone, .pyNone => true
  | _, _ => false

/-- Elementwise Python equality of sequences. -/
def pyBeqList : List PyVal → List PyVal → Bool
  | [], [] => true
  | a :: as, b :: bs => pyBeq a b && pyBeqList as bs
  | _, _ => false

/-- Pairwise Python equality of dict entry lists. -/
def pyBeqEntries : List (PyVal × PyVal) → List (PyVal × PyVal) → Bool
  | [], [] => true
  | (k1, v1) :: as, (k2, v2) :: bs =>
      pyBeq k1 k2 && pyBeq v1 v2 && pyBeqEntries as bs
  | _, _ => false

end

/-- Python len: defined for strings, lists, tuples and dicts; none models
the TypeError branch (utils.py lines 435-437) for values without a
length. -/
def pyLen : PyVal → Option Nat
  | .pyStr s => some s.length
  | .pyList xs => some xs.length
  | .pyTuple xs => some xs.length
  | .pyDict es => some es.length
  | _ => none

/-- The isinstance(x, tuple) test at utils.py line 409. -/
def isPyTuple : PyVal → Bool
  | .pyTuple _ => true
  | _ => false

/-- Python slice l[:m], including a negative bound m, which counts from
the end and clamps at zero. -/
def pyTake {α : Type} (m : Int) (l : List α) : List α :=
  if 0 ≤ m then l.take m.toNat else l.take (l.length - (-m).toNat)

/-- Python key-membership test on a dict modelled as an entry list. -/
def pyHasKey (entries : List (PyVal × PyVal)) (k : PyVal) : Bool :=
  entries.any (fun p => pyBeq p.1 k)

/-- Python dict.get: the stored value of the key, or None. -/
def pyGet (entries : List (PyVal × PyVal)) (k : PyVal) : PyVal :=
  match entries.find? (fun p => pyBeq p.1 k) with
  | some p => p.2
  | none => .pyNone

/-- Dict item assignment: replace the value of an existing key, else
append the new pair, as CPython dicts do (first-insertion order, latest
value wins). -/
def pyDictInsert (entries : List (PyVal × PyVal)) (kv : PyVal × PyVal) :
    List (PyVal × PyVal) :=
  if pyHasKey entries kv.1 then
    entries.map (fun p => if pyBeq p.1 kv.1 then (p.1, kv.2) else p)
  else entries ++ [kv]

/-- Model of the Python dict constructor on a list of pairs: repeated
insertion. -/
def pyDictOfPairs (l : List (PyVal × PyVal)) : List (PyVal × PyVal) :=
  l.foldl pyDictInsert []

/-- The song-dictionary branch of truncate (utils.py lines 419-423): keep
the title, artist and album entries, then add an ellipsis marker key. -/
def songTrunc (entries : List (PyVal × PyVal)) : PyVal :=
  let trunc := pyDictOfPairs
    ([PyVal.pyStr "title", PyVal.pyStr "artist", PyVal.pyStr "album"].map
      (fun k => (k, pyGet entries k)))
  .pyDict (pyDictInsert trunc (PyVal.pyStr "...", PyVal.pyStr "..."))

mutual

/-- Embedding of truncate (utils.py lines 402-439), by type dispatch.  The
source first coerces a tuple argument to a list (recording is_tuple), then
asks for len(x) (TypeError means: return x unchanged), and only truncates
when len(x) > max_els, handling basestring, dict and list in that order;
with no truncation the (possibly coerced) x is returned.  Each constructor
arm below is the corresponding source path: strings get the first
max_els characters plus an ellipsis; dicts either take the song-dict
branch or keep the first max_els items plus an ellipsis entry; lists and
tuples share the sequence arm. -/
def truncate (x : PyVal) (max_els : Int) (recurse_levels : Int) : PyVal :=
  match x with
  | .pyStr s =>
      if (s.length : Int) > max_els then
        .pyStr (String.mk (pyTake max_els s.data ++ "...".data))
      else .pyStr s
  | .pyDict entries =>
      if (entries.length : Int) > max_els then
        if pyHasKey entries (.pyStr "id") && pyHasKey entries (.pyStr "titleNorm")
        then songTrunc entries
        else .pyDict (pyDictOfPairs (pyTake max_els entries ++
          [(PyVal.pyStr "...", PyVal.pyStr "...")]))
      else .pyDict entries
  | .pyList xs => truncateSeq xs false max_els recurse_levels
  | .pyTuple xs => truncateSeq xs true max_els recurse_levels
  | other => other
termination_by sizeOf x

/-- The list arm of truncate after the tuple coercion of utils.py lines
407-411; is_tuple records whether the argument was a tuple.  When
truncation happens: trunc = x[:max_els] + an ellipsis element; when
recurse_levels > 0 the source replaces trunc by the elementwise
truncation of trunc[:-1] (passing recurse_levels - 1 in the max_els
position, as the source does); a tuple argument is converted back.  When
no truncation is needed the coerced value is returned, so a small tuple
comes back as a list. -/
def truncateSeq (xs : List PyVal) (is_tuple : Bool)
    (max_els recurse_levels : Int) : PyVal :=
  if (xs.length : Int) > max_els then
    let trunc := pyTake max_els xs ++ [PyVal.pyStr "..."]
    let trunc2 := if recurse_levels > 0 then
        (pyTake (-1) trunc).attach.map
          (fun e => truncate e.1 (recurse_levels - 1) 0)
      else trunc
    if is_tuple then .pyTuple trunc2 else .pyList trunc2
  else .pyList xs
termination_by sizeOf xs
decreasing_by
  obtain ⟨v, hv⟩ := e
  have he : v ∈ pyTake (-1) (pyTake max_els xs ++ [PyVal.pyStr "..."]) := hv
  have h1 : pyTake (-1) (pyTake max_els xs ++ [PyVal.pyStr "..."]) =
      pyTake max_els xs := by
    rw [pyTake]
    norm_num
  rw [h1] at he
  simp only [pyTake] at he
  have hmem : v ∈ xs := by
    by_cases h0 : (0 : Int) ≤ max_els
    · rw [if_pos h0] at he
      exact List.take_subset _ _ he
    · rw [if_neg h0] at he
      exact List.take_subset _ _ he
  exact List.sizeOf_lt_of_mem hmem

end

/-- When the attempt budget is at most 1 the loop body never runs: the
wrapper performs the single unconditional final invocation. -/
lemma retry_go_of_le_one {α ε : Type} (retryable : ε → Bool)
    (f : Nat → PyResult α ε) (backoff : ℚ) (mtries : Int) (mdelay : ℚ)
    (ncalls : Nat) (sleeps : List ℚ) (logs : List (ε × ℚ))
    (h : ¬ 1 < mtries) :
    retry_go retryable f backoff mtries mdelay ncalls sleeps logs =
      ⟨ncalls + 1, sleeps, logs, f (ncalls + 1)⟩ := by
  rw [retry_go]
  simp [h]

/-- Trace of the wrapper on an operation that raises a retryable exception
at every invocation, for an attempt budget mtries = j + 1: all j loop
iterations fail and retry, then the final invocation fails and its
exception is the outcome. -/
lemma retry_go_all_fail {α ε : Type} (retryable : ε → Bool) (err : Nat → ε)
    (hr : ∀ n, retryable (err n) = true) (backoff : ℚ) :
    ∀ (j : Nat) (mtries : Int), mtries = (j : Int) + 1 →
    ∀ (mdelay : ℚ) (ncalls : Nat) (sleeps : List ℚ) (logs : List (ε × ℚ)),
    retry_go (α := α) retryable (fun n => PyResult.exn (err n)) backoff mtries
        mdelay ncalls sleeps logs =
      ⟨ncalls + j + 1,
       sleeps ++ (List.range j).map (fun i => mdelay * backoff ^ i),
       logs ++ (List.range j).map
         (fun i => (err (ncalls + i + 1), mdelay * backoff ^ i)),
       PyResult.exn (err (ncalls + j + 1))⟩ := by
  intro j
  induction j with
  | zero =>
    intro mtries hm mdelay ncalls sleeps logs
    have h1 : ¬ 1 < mtries := by omega
    rw [retry_go_of_le_one _ _ _ _ _ _ _ _ h1]
    simp
  | succ j ih =>
    intro mtries hm mdelay ncalls sleeps logs
    have h1 : 1 < mtries := by
      rw [hm]
      push_cast
      omega
    have hstep : retry_go (α := α) retryable (fun n => PyResult.exn (err n))
        backoff mtries mdelay ncalls sleeps logs =
        retry_go retryable (fun n => PyResult.exn (err n)) backoff (mtries - 1)
          (mdelay * backoff) (ncalls + 1) (sleeps ++ [mdelay])
          (logs ++ [(err (ncalls + 1), mdelay)]) := by
      rw [retry_go]
      simp [h1, hr]
    rw [hstep]
    have hm' : mtries - 1 = (j : Int) + 1 := by
      rw [hm]
      push_cast
      ring
    rw [ih (mtries - 1) hm' (mdelay * backoff) (ncalls + 1) (sleeps ++ [mdelay])
      (logs ++ [(err (ncalls + 1), mdelay)])]
    have hsleepfun : ((fun i => mdelay * backoff ^ i) ∘ Nat.succ) =
        fun i : Nat => mdelay * backoff * backoff ^ i := by
      funext i
      simp only [Function.comp_apply, Nat.succ_eq_add_one, pow_succ]
      ring
    have hsleeps : (sleeps ++ [mdelay]) ++
        (List.range j).map (fun i => mdelay * backoff * backoff ^ i) =
        sleeps ++ (List.range (j + 1)).map (fun i => mdelay * backoff ^ i) := by
      rw [List.append_assoc, List.range_succ_eq_map, List.map_cons, List.map_map,
        hsleepfun]
      simp only [pow_zero, mul_one, List.singleton_append]
    have hlogfun : ((fun i => (err (ncalls + i + 1), mdelay * backoff ^ i)) ∘
          Nat.succ) = fun i : Nat =>
          (err (ncalls + 1 + i + 1), mdelay * backoff * backoff ^ i) := by
      funext i
      simp only [Function.comp_apply, Nat.succ_eq_add_one, pow_succ]
      refine congrArg₂ Prod.mk (congrArg err (by omega)) (by ring)
    have hlogs : (logs ++ [(err (ncalls + 1), mdelay)]) ++
        (List.range j).map
          (fun i => (err (ncalls + 1 + i + 1), mdelay * backoff * backoff ^ i)) =
        logs ++ (List.range (j + 1)).map
          (fun i => (err (ncalls + i + 1), mdelay * backoff ^ i)) := by
      rw [List.append_assoc, List.range_succ_eq_map, List.map_cons, List.map_map,
        hlogfun]
      simp only [pow_zero, mul_one, List.singleton_append, Nat.add_zero]
    rw [hsleeps, hlogs]
    have hcalls : ncalls + 1 + j + 1 = ncalls + (j + 1) + 1 := by omega
    rw [hcalls]

/-- Trace of the wrapper on an operation that raises retryable exceptions
on the next j invocations and then succeeds, provided the budget allows the
(j+1)-th invocation to happen (inside the loop or as the final call). -/
lemma retry_go_success {α ε : Type} (retryable : ε → Bool)
    (f : Nat → PyResult α ε) (backoff : ℚ) :
    ∀ (j : Nat) (mtries : Int) (mdelay : ℚ) (ncalls : Nat) (sleeps : List ℚ)
      (logs : List (ε × ℚ)) (a : α),
      (∀ i, i < j → ∃ e, f (ncalls + i + 1) = PyResult.exn e ∧ retryable e = true) →
      f (ncalls + j + 1) = PyResult.ok a →
      (j = 0 ∨ (j : Int) + 1 ≤ mtries) →
      (retry_go retryable f backoff mtries mdelay ncalls sleeps logs).calls =
          ncalls + j + 1 ∧
      (retry_go retryable f backoff mtries mdelay ncalls sleeps logs).outcome =
          PyResult.ok a := by
  intro j
  induction j with
  | zero =>
    intro mtries mdelay ncalls sleeps logs a _ hok _
    simp only [Nat.add_zero] at hok
    rw [retry_go]
    by_cases h1 : 1 < mtries
    · simp [h1, hok]
    · simp [h1, hok]
  | succ j ih =>
    intro mtries mdelay ncalls sleeps logs a hfail hok hcond
    have h1 : 1 < mtries := by
      rcases hcond with h | h
      · omega
      · push_cast at h
        omega
    obtain ⟨e, he, hre⟩ := hfail 0 (by omega)
    simp only [Nat.add_zero] at he
    have hstep : retry_go retryable f backoff mtries mdelay ncalls sleeps logs =
        retry_go retryable f backoff (mtries - 1) (mdelay * backoff) (ncalls + 1)
          (sleeps ++ [mdelay]) (logs ++ [(e, mdelay)]) := by
      rw [retry_go]
      simp [h1, he, hre]
    rw [hstep]
    have hfail' : ∀ i, i < j →
        ∃ e', f (ncalls + 1 + i + 1) = PyResult.exn e' ∧ retryable e' = true := by
      intro i hi
      obtain ⟨e', h1', h2'⟩ := hfail (i + 1) (by omega)
      refine ⟨e', ?_, h2'⟩
      rw [show ncalls + 1 + i + 1 = ncalls + (i + 1) + 1 by omega]
      exact h1'
    have hok' : f (ncalls + 1 + j + 1) = PyResult.ok a := by
      rw [show ncalls + 1 + j + 1 = ncalls + (j + 1) + 1 by omega]
      exact hok
    have hcond' : j = 0 ∨ (j : Int) + 1 ≤ mtries - 1 := by
      rcases hcond with h | h
      · omega
      · right
        push_cast at h
        omega
    obtain ⟨hc, ho⟩ := ih (mtries - 1) (mdelay * backoff) (ncalls + 1)
      (sleeps ++ [mdelay]) (logs ++ [(e, mdelay)]) a hfail' hok' hcond'
    refine ⟨?_, ho⟩
    rw [hc]
    omega

/-- An invocation that raises a non-retryable exception escapes the except
clause (in the loop) or the final call, so it propagates at once. -/
lemma retry_go_nonretryable {α ε : Type} (retryable : ε → Bool)
    (f : Nat → PyResult α ε) (backoff : ℚ) (mtries : Int) (mdelay : ℚ)
    (ncalls : Nat) (sleeps : List ℚ) (logs : List (ε × ℚ)) (e : ε)
    (hf : f (ncalls + 1) = PyResult.exn e) (hre : retryable e = false) :
    retry_go retryable f backoff mtries mdelay ncalls sleeps logs =
      ⟨ncalls + 1, sleeps, logs, PyResult.exn e⟩ := by
  rw [retry_go]
  by_cases h1 : 1 < mtries
  · simp [h1, hf, hre]
  · simp [h1, hf]

/-- Claim C1: for every tries = N >= 1 and every operation that raises an
exception of a retryable kind on every invocation, the retry-wrapped call
invokes the operation exactly N times, and the exception raised by the
N-th invocation propagates to the caller exactly as raised. -/
theorem retry_exhausts_attempts (α ε : Type) (N : Nat) (hN : 1 ≤ N)
    (retryable : ε → Bool) (delay backoff : ℚ) (err : Nat → ε)
    (hr : ∀ n, retryable (err n) = true) :
    (retry_wrapper retryable (N : Int) delay backoff
        (fun n => PyResult.exn (α := α) (err n))).calls = N ∧
    (retry_wrapper retryable (N : Int) delay backoff
        (fun n => PyResult.exn (α := α) (err n))).outcome =
      PyResult.exn (err N) := by
  have h := retry_go_all_fail (α := α) retryable err hr backoff (N - 1) (N : Int)
    (by push_cast; omega) delay 0 [] []
  rw [retry_wrapper, h]
  refine ⟨?_, ?_⟩
  · show 0 + (N - 1) + 1 = N
    omega
  · show PyResult.exn (err (0 + (N - 1) + 1)) = PyResult.exn (err N)
    rw [show 0 + (N - 1) + 1 = N by omega]

theorem retry_exhausts_attempts_witness :
    (retry_wrapper (fun e => e == ExcKind.CallFailure) ((3 : Nat) : Int) 2 2
        (fun _ => PyResult.exn (α := Unit) ExcKind.CallFailure)).calls = 3 ∧
    (retry_wrapper (fun e => e == ExcKind.CallFailure) ((3 : Nat) : Int) 2 2
        (fun _ => PyResult.exn (α := Unit) ExcKind.CallFailure)).outcome =
      PyResult.exn ExcKind.CallFailure :=
  retry_exhausts_attempts Unit ExcKind 3 (by omega) _ 2 2
    (fun _ => ExcKind.CallFailure) (fun _ => rfl)

/-- Claim C2: for every tries = N >= 1 and every operation that succeeds on
its k-th invocation with k <= N (raising retryable exceptions on
invocations 1..k-1), the retry-wrapped call invokes the operation exactly
k times and returns the result of the k-th invocation. -/
theorem retry_returns_kth_success (α ε : Type) (N k : Nat) (hk : 1 ≤ k)
    (hkN : k ≤ N) (retryable : ε → Bool) (delay backoff : ℚ)
    (f : Nat → PyResult α ε) (a : α)
    (hfail : ∀ n, 1 ≤ n → n < k → ∃ e, f n = PyResult.exn e ∧ retryable e = true)
    (hok : f k = PyResult.ok a) :
    (retry_wrapper retryable (N : Int) delay backoff f).calls = k ∧
    (retry_wrapper retryable (N : Int) delay backoff f).outcome =
      PyResult.ok a := by
  have hfail' : ∀ i, i < k - 1 →
      ∃ e, f (0 + i + 1) = PyResult.exn e ∧ retryable e = true := by
    intro i hi
    have := hfail (i + 1) (by omega) (by omega)
    simpa using this
  have hok' : f (0 + (k - 1) + 1) = PyResult.ok a := by
    rw [show 0 + (k - 1) + 1 = k by omega]
    exact hok
  have hcond : k - 1 = 0 ∨ ((k - 1 : Nat) : Int) + 1 ≤ (N : Int) := by
    right
    push_cast
    omega
  obtain ⟨hc, ho⟩ := retry_go_success retryable f backoff (k - 1) (N : Int)
    delay 0 [] [] a hfail' hok' hcond
  rw [retry_wrapper]
  refine ⟨?_, ho⟩
  rw [hc]
  omega

theorem retry_returns_kth_success_witness :
    (retry_wrapper (fun e => e == ExcKind.CallFailure) ((6 : Nat) : Int) 2 2
        (fun n => if n < 2 then PyResult.exn ExcKind.CallFailure
                  else PyResult.ok (42 : Nat))).calls = 2 ∧
    (retry_wrapper (fun e => e == ExcKind.CallFailure) ((6 : Nat) : Int) 2 2
        (fun n => if n < 2 then PyResult.exn ExcKind.CallFailure
                  else PyResult.ok (42 : Nat))).outcome =
      PyResult.ok 42 :=
  retry_returns_kth_success Nat ExcKind 6 2 (by omega) (by omega) _ 2 2 _ 42
    (fun n h1 h2 => by
      have hn : n = 1 := by omega
      subst hn
      exact ⟨ExcKind.CallFailure, rfl, rfl⟩)
    rfl

/-- Claim C3: for every tries = N >= 1, if the operation raises an
exception whose kind is not in the configured retryable set on its first
invocation, the retry-wrapped call invokes the operation exactly once,
performs no wait, and propagates that exception immediately. -/
theorem retry_nonretryable_immediate (α ε : Type) (N : Nat) (hN : 1 ≤ N)
    (retryable : ε → Bool) (delay backoff : ℚ) (f : Nat → PyResult α ε)
    (e : ε) (hf : f 1 = PyResult.exn e) (hre : retryable e = false) :
    retry_wrapper retryable (N : Int) delay backoff f =
      ⟨1, [], [], PyResult.exn e⟩ :=
  retry_go_nonretryable retryable f backoff (N : Int) delay 0 [] [] e hf hre

theorem retry_nonretryable_immediate_witness :
    retry_wrapper (fun e => e == ExcKind.CallFailure) ((6 : Nat) : Int) 2 2
        (fun _ => PyResult.exn (α := Unit) (ExcKind.other "ValueError")) =
      ⟨1, [], [], PyResult.exn (ExcKind.other "ValueError")⟩ :=
  retry_nonretryable_immediate Unit ExcKind 6 (by omega) _ 2 2 _
    (ExcKind.other "ValueError") rfl (by decide)

/-- Claim C4: for every tries = N >= 1, delay = d, backoff = b, in a
retry-wrapped call whose operation keeps raising retryable exceptions, the
wait performed before attempt i+1 (for each i from 1 to N-1) equals
d * b^(i-1): the sequence of sleep durations is d, d*b, d*b^2, ... -/
theorem retry_sleep_schedule (α ε : Type) (N : Nat) (hN : 1 ≤ N)
    (retryable : ε → Bool) (d b : ℚ) (err : Nat → ε)
    (hr : ∀ n, retryable (err n) = true) :
    (retry_wrapper retryable (N : Int) d b
        (fun n => PyResult.exn (α := α) (err n))).sleeps =
      (List.range (N - 1)).map (fun i => d * b ^ i) := by
  have h := retry_go_all_fail (α := α) retryable err hr b (N - 1) (N : Int)
    (by push_cast; omega) d 0 [] []
  rw [retry_wrapper, h]
  simp

theorem retry_sleep_schedule_witness :
    (retry_wrapper (fun e => e == ExcKind.CallFailure) ((4 : Nat) : Int) 1 2
        (fun _ => PyResult.exn (α := Unit) ExcKind.CallFailure)).sleeps =
      (List.range (4 - 1)).map (fun i => 1 * 2 ^ i) :=
  retry_sleep_schedule Unit ExcKind 4 (by omega) _ 1 2
    (fun _ => ExcKind.CallFailure) (fun _ => rfl)

/-- Claim C5: when the retry decorator is invoked with
retry_exception = None (or without arguments), the set of exception kinds
that trigger a retry is exactly \x7bAssertionError, CallFailure\x7d; every
other exception kind propagates immediately. -/
theorem retry_default_retryable_set :
    (∀ e : ExcKind, resolved_retry_exception none e = true ↔
        (e = ExcKind.AssertionError ∨ e = ExcKind.CallFailure)) ∧
    (∀ (α : Type) (e : ExcKind) (tries : Int) (d b : ℚ)
        (f : Nat → PyResult α ExcKind),
      ¬(e = ExcKind.AssertionError ∨ e = ExcKind.CallFailure) →
      f 1 = PyResult.exn e →
      retry none tries d b f = ⟨1, [], [], PyResult.exn e⟩) := by
  constructor
  · intro e
    simp [resolved_retry_exception]
  · intro α e tries d b f he hf
    push_neg at he
    have hre : resolved_retry_exception none e = false := by
      simp [resolved_retry_exception, he.1, he.2]
    exact retry_go_nonretryable _ f b tries d 0 [] [] e hf hre

theorem retry_default_retryable_set_witness :
    retry none 6 2 2
        (fun _ => PyResult.exn (α := Unit) (ExcKind.other "ValueError")) =
      ⟨1, [], [], PyResult.exn (ExcKind.other "ValueError")⟩ :=
  retry_default_retryable_set.2 Unit (ExcKind.other "ValueError") 6 2 2 _
    (by decide) rfl

/-- Claim C6: each retry (each caught retryable exception followed by a
further attempt) emits exactly one informational log entry recording the
caught error together with the delay that will be waited before the next
attempt; in particular, with tries = 3 an operation that always raises a
retryable exception produces exactly 2 such log entries. -/
theorem retry_logs_each_retry (α ε : Type) (N : Nat) (hN : 1 ≤ N)
    (retryable : ε → Bool) (d b : ℚ) (err : Nat → ε)
    (hr : ∀ n, retryable (err n) = true) :
    (retry_wrapper retryable (N : Int) d b
        (fun n => PyResult.exn (α := α) (err n))).logs =
      (List.range (N - 1)).map (fun i => (err (i + 1), d * b ^ i)) ∧
    (N = 3 →
      ((retry_wrapper retryable (N : Int) d b
          (fun n => PyResult.exn (α := α) (err n))).logs).length = 2) := by
  have h := retry_go_all_fail (α := α) retryable err hr b (N - 1) (N : Int)
    (by push_cast; omega) d 0 [] []
  rw [retry_wrapper, h]
  constructor
  · simp
  · intro h3
    subst h3
    simp

theorem retry_logs_each_retry_witness :
    (retry_wrapper (fun e => e == ExcKind.CallFailure) ((3 : Nat) : Int) 1 2
        (fun _ => PyResult.exn (α := Unit) ExcKind.CallFailure)).logs =
      (List.range (3 - 1)).map (fun i => (ExcKind.CallFailure, 1 * 2 ^ i)) ∧
    (3 = 3 →
      ((retry_wrapper (fun e => e == ExcKind.CallFailure) ((3 : Nat) : Int) 1 2
          (fun _ => PyResult.exn (α := Unit) ExcKind.CallFailure)).logs).length = 2) :=
  retry_logs_each_retry Unit ExcKind 3 (by omega) _ 1 2
    (fun _ => ExcKind.CallFailure) (fun _ => rfl)

/-- Claim C7: for tries = 1 and every operation, the retry-wrapped call
invokes the operation exactly once and performs no wait, regardless of
whether the operation succeeds or raises, and regardless of whether a
raised exception is of a retryable kind. -/
theorem retry_single_attempt (α ε : Type) (retryable : ε → Bool)
    (delay backoff : ℚ) (f : Nat → PyResult α ε) :
    retry_wrapper retryable 1 delay backoff f = ⟨1, [], [], f 1⟩ :=
  retry_go_of_le_one retryable f backoff 1 delay 0 [] [] (by omega)

/-- Claim C8: for every tries value <= 1, including 0 and negative values,
the retry-wrapped call still invokes the operation exactly once: the retry
loop is skipped but the final unconditional invocation always runs,
returning the result of the operation or propagating its exception. -/
theorem retry_tries_le_one_single_call (α ε : Type) (retryable : ε → Bool)
    (tries : Int) (htries : tries ≤ 1) (delay backoff : ℚ)
    (f : Nat → PyResult α ε) :
    retry_wrapper retryable tries delay backoff f = ⟨1, [], [], f 1⟩ :=
  retry_go_of_le_one retryable f backoff tries delay 0 [] [] (by omega)

theorem retry_tries_le_one_single_call_witness :
    retry_wrapper (fun _ => true) (-3) 2 2
        (fun _ => PyResult.ok (α := Nat) (ε := ExcKind) 7) =
      ⟨1, [], [], PyResult.ok 7⟩ :=
  retry_tries_le_one_single_call Nat ExcKind _ (-3) (by omega) 2 2 _

/-- Each base-16 digit is rendered as one of the sixteen hex characters. -/
lemma hexDigitChar_mem (d : Nat) (hd : d < 16) : hexDigitChar d ∈ lowerHexChars := by
  interval_cases d <;> decide

/-- Every character produced by hexChars is a lowercase hex character. -/
lemma hexChars_subset (n : Nat) : ∀ c ∈ hexChars n, c ∈ lowerHexChars := by
  intro c hc
  rw [hexChars] at hc
  by_cases h : n = 0
  · rw [if_pos h, List.mem_singleton] at hc
    subst hc
    decide
  · rw [if_neg h, List.mem_reverse, List.mem_map] at hc
    obtain ⟨d, hd, rfl⟩ := hc
    exact hexDigitChar_mem d (Nat.digits_lt_base (by norm_num) hd)

/-- A number below 16 to the 12th has at most 12 base-16 digits. -/
lemma hexChars_length_le (n : Nat) (h : n < 16 ^ 12) : (hexChars n).length ≤ 12 := by
  rw [hexChars]
  by_cases h0 : n = 0
  · rw [if_pos h0]
    decide
  · rw [if_neg h0, List.length_reverse, List.length_map,
      Nat.digits_len 16 n (by norm_num) h0]
    have hlog := (Nat.lt_pow_iff_log_lt (by norm_num) h0).mp h
    omega

/-- Uppercasing a lowercase hex character lands in the class [0-9A-F]. -/
lemma toUpper_lowerHex : ∀ c ∈ lowerHexChars,
    isUpperHexDigit (Char.toUpper c) = true := by
  decide

/-- A two-element slice of a list of length at least n+2 consists of two
members of the list. -/
lemma take_two_mem {α : Type} (l : List α) (n : Nat) (h : n + 1 < l.length) :
    ∃ a b, (l.drop n).take 2 = [a, b] ∧ a ∈ l ∧ b ∈ l := by
  have hlen : 2 ≤ (l.drop n).length := by
    rw [List.length_drop]
    omega
  rcases hd : l.drop n with _ | ⟨a, _ | ⟨b, rest⟩⟩
  · rw [hd] at hlen
    simp at hlen
  · rw [hd] at hlen
    simp at hlen
  · refine ⟨a, b, rfl, ?_, ?_⟩
    · exact List.mem_of_mem_drop (hd ▸ List.mem_cons_self a (b :: rest))
    · exact List.mem_of_mem_drop
        (hd ▸ List.mem_cons_of_mem a (List.mem_cons_self b rest))

/-- Joining k+1 two-character pieces with a colon and uppercasing the
result yields a string accepted by the k-group mac pattern, provided each
piece uppercases into [0-9A-F] pairs. -/
lemma macGroups_join (k : Nat) :
    ∀ pieces : List (List Char), pieces.length = k + 1 →
      (∀ p ∈ pieces, ∃ a b, p = [a, b] ∧
        isUpperHexDigit (Char.toUpper a) = true ∧
        isUpperHexDigit (Char.toUpper b) = true) →
      macGroups k ((joinWith [':'] pieces).map Char.toUpper) = true := by
  induction k with
  | zero =>
    intro pieces hlen hp
    rcases pieces with _ | ⟨p, _ | ⟨q, ps⟩⟩
    · simp at hlen
    · obtain ⟨a, b, rfl, ha, hb⟩ := hp p (List.mem_singleton.mpr rfl)
      simp [joinWith, macGroups, ha, hb]
    · simp at hlen
  | succ k ih =>
    intro pieces hlen hp
    rcases pieces with _ | ⟨p, _ | ⟨q, ps⟩⟩
    · simp at hlen
    · simp at hlen
    · obtain ⟨a, b, rfl, ha, hb⟩ := hp _ (List.mem_cons_self _ _)
      have hcolon : Char.toUpper ':' = ':' := by decide
      simp only [joinWith, List.map_append, List.map_cons, List.map_nil,
        List.cons_append, List.nil_append, hcolon]
      simp only [macGroups, ha, hb, Bool.true_and, beq_self_eq_true]
      exact ih (q :: ps) (by simpa using hlen)
        (fun r hr => hp r (List.mem_cons_of_mem _ hr))

/-- Padding a hex string of length at most 12 to width 12, slicing it into
six pairs, joining with colons and uppercasing yields a string the mac
pattern accepts. -/
lemma is_valid_of_padded (mac0 : List Char) (hlen : mac0.length ≤ 12)
    (hchars : ∀ c ∈ mac0, c ∈ lowerHexChars) :
    macGroups 5 ((joinWith [':'] ((List.range 6).map (fun i =>
        (((List.replicate (max (12 - mac0.length) 0) '0' ++ mac0).drop
          (2 * i)).take 2)))).map Char.toUpper) = true := by
  have hplen :
      (List.replicate (max (12 - mac0.length) 0) '0' ++ mac0).length = 12 := by
    rw [List.length_append, List.length_replicate]
    omega
  have hpchars : ∀ c ∈ List.replicate (max (12 - mac0.length) 0) '0' ++ mac0,
      c ∈ lowerHexChars := by
    intro c hc
    rcases List.mem_append.mp hc with h1 | h2
    · rw [List.eq_of_mem_replicate h1]
      decide
    · exact hchars c h2
  apply macGroups_join
  · rw [List.length_map, List.length_range]
  · intro p hp
    rw [List.mem_map] at hp
    obtain ⟨i, hi, rfl⟩ := hp
    rw [List.mem_range] at hi
    obtain ⟨a, b, hab, hma, hmb⟩ := take_two_mem _ (2 * i)
      (by rw [hplen]; omega)
    rw [hab]
    exact ⟨a, b, rfl, toUpper_lowerHex a (hpchars a hma),
      toUpper_lowerHex b (hpchars b hmb)⟩

/-- Claim C9: for every integer num with 0 <= num < 2^48,
is_valid_mac (create_mac_string num) returns True when create_mac_string
uses its default splitter, a colon: the formatter always produces a string
the validator accepts. -/
theorem mac_roundtrip (num : Nat) (h : num < 2 ^ 48) :
    is_valid_mac (create_mac_string num ":") = true := by
  have h16 : num < 16 ^ 12 := by
    have hpow : (16 : Nat) ^ 12 = 2 ^ 48 := by norm_num
    omega
  exact is_valid_of_padded (hexChars num) (hexChars_length_le num h16)
    (hexChars_subset num)

theorem mac_roundtrip_witness :
    (0x112233AABBCC : Nat) < 2 ^ 48 ∧
    is_valid_mac (create_mac_string 0x112233AABBCC ":") = true :=
  ⟨by norm_num, mac_roundtrip 0x112233AABBCC (by norm_num)⟩

/-- Claim C10: for every non-tuple value x that either has no length or
has length at most max_els, truncate returns x itself unchanged; but for
every tuple x with length at most max_els, truncate returns list(x), a
list with the same elements, not the original tuple, despite the stated
goal in the docstring of returning a value of the same type. -/
theorem truncate_small (max_els recurse_levels : Int) :
    (∀ x : PyVal, isPyTuple x = false →
      (∀ n, pyLen x = some n → (n : Int) ≤ max_els) →
      truncate x max_els recurse_levels = x) ∧
    (∀ xs : List PyVal, ((xs.length : Int) ≤ max_els) →
      truncate (.pyTuple xs) max_els recurse_levels = .pyList xs) := by
  have hseq : ∀ (xs : List PyVal) (b : Bool), ((xs.length : Int) ≤ max_els) →
      truncateSeq xs b max_els recurse_levels = .pyList xs := by
    intro xs b h
    rw [truncateSeq, if_neg (by omega)]
  constructor
  · intro x hx hlen
    cases x with
    | pyStr s =>
      rw [truncate, if_neg (by have := hlen s.length rfl; omega)]
    | pyList xs =>
      rw [truncate]
      exact hseq xs false (by have := hlen xs.length rfl; omega)
    | pyTuple xs =>
      simp [isPyTuple] at hx
    | pyDict entries =>
      rw [truncate, if_neg (by have := hlen entries.length rfl; omega)]
    | pyInt n =>
      rw [truncate]
      all_goals exact fun _ h => PyVal.noConfusion h
    | pyNone =>
      rw [truncate]
      all_goals exact fun _ h => PyVal.noConfusion h
  · intro xs h
    rw [truncate]
    exact hseq xs true h

theorem truncate_small_witness :
    truncate (PyVal.pyStr "ab") 100 0 = PyVal.pyStr "ab" ∧
    truncate (PyVal.pyTuple [PyVal.pyInt 1, PyVal.pyInt 2]) 100 0 =
      PyVal.pyList [PyVal.pyInt 1, PyVal.pyInt 2] :=
  ⟨(truncate_small 100 0).1 (PyVal.pyStr "ab") rfl
      (fun n h => by
        have h2 := Option.some.inj h
        rw [← h2]
        decide),
   (truncate_small 100 0).2 [PyVal.pyInt 1, PyVal.pyInt 2] (by norm_num)⟩

end GMUtils
